import Mathlib

/-!
Shallow embedding of the password-protected key custody subsystem of the
zero-connector repository (src/core/crypto.js, src/handlers/create-wallet.js,
src/storage/json-adapter.js, src/storage/postgres-adapter.js), together with
proofs of the specification claims about it.

Bytes are modelled as `Nat` values (meaningful when `< 256`), byte buffers as
`List Nat`, JavaScript strings as Lean `String`.  The external cryptographic
primitives (Node scrypt and AES-256-GCM) are modelled as a parameter structure
`CryptoPrims` whose fields carry the functional laws of an ideal KDF / AEAD
scheme; every theorem is proved for an arbitrary instance and witnessed by an
executable toy instance.
-/

namespace ZeroConnector

/-- Lowercase hex digit for a nibble, as produced by Node Buffer.toString with
the hex encoding: digits 0-9 then a-f. -/
def hexDigit (n : Nat) : Char :=
  if n < 10 then Char.ofNat (48 + n) else Char.ofNat (87 + n)

/-- Hex encoding of a byte buffer, two lowercase digits per byte, high nibble
first (Node Buffer.toString hex). -/
def hexEncodeChars : List Nat → List Char
  | [] => []
  | b :: rest => hexDigit (b / 16 % 16) :: hexDigit (b % 16) :: hexEncodeChars rest

def hexEncode (bs : List Nat) : String :=
  ⟨hexEncodeChars bs⟩

/-- Numeric value of one hex character; Node Buffer.from with the hex encoding
accepts both lowercase and uppercase digits. -/
def hexVal (c : Char) : Option Nat :=
  if 48 ≤ c.toNat ∧ c.toNat ≤ 57 then some (c.toNat - 48)
  else if 97 ≤ c.toNat ∧ c.toNat ≤ 102 then some (c.toNat - 87)
  else if 65 ≤ c.toNat ∧ c.toNat ≤ 70 then some (c.toNat - 55)
  else none

/-- Hex decoding of a string, Node Buffer.from(s, hex) semantics: consume
pairs of hex digits, and stop (truncate) at the first invalid pair or at an
odd trailing digit. -/
def hexDecodeChars : List Char → List Nat
  | c1 :: c2 :: rest =>
    match hexVal c1, hexVal c2 with
    | some h, some l => (16 * h + l) :: hexDecodeChars rest
    | _, _ => []
  | _ => []

def hexDecode (s : String) : List Nat :=
  hexDecodeChars s.data

/-- Membership of a character in the lowercase hex alphabet, used to state the
wire-format claim about envelope fields. -/
def isLowerHexChar (c : Char) : Bool :=
  (48 ≤ c.toNat && c.toNat ≤ 57) || (97 ≤ c.toNat && c.toNat ≤ 102)

def isLowerHexString (s : String) : Bool :=
  s.data.all isLowerHexChar

/-- JavaScript String.prototype.split with a single-character separator:
split at every occurrence of the separator, keeping empty pieces. -/
def splitOnChar (sep : Char) : List Char → List (List Char)
  | [] => [[]]
  | c :: rest =>
    if c = sep then [] :: splitOnChar sep rest
    else
      match splitOnChar sep rest with
      | h :: t => (c :: h) :: t
      | [] => [[c]]

def jsSplit (sep : Char) (s : String) : List String :=
  (splitOnChar sep s.data).map (fun l => ⟨l⟩)

theorem hexDigit_lt_16_spec : ∀ n < 16, hexVal (hexDigit n) = some n := by
  decide

theorem hexDigit_isLowerHex : ∀ n < 16, isLowerHexChar (hexDigit n) = true := by
  decide

theorem hexDigit_ne_colon : ∀ n < 16, hexDigit n ≠ ':' := by
  decide

theorem hexEncodeChars_all_lower (bs : List Nat) :
    ∀ c ∈ hexEncodeChars bs, isLowerHexChar c = true := by
  induction bs with
  | nil => intro c hc; cases hc
  | cons b rest ih =>
    intro c hc
    simp only [hexEncodeChars, List.mem_cons] at hc
    rcases hc with h | h | h
    · subst h; exact hexDigit_isLowerHex _ (Nat.mod_lt _ (by omega))
    · subst h; exact hexDigit_isLowerHex _ (Nat.mod_lt _ (by omega))
    · exact ih c h

theorem hexEncodeChars_ne_colon (bs : List Nat) :
    ∀ c ∈ hexEncodeChars bs, c ≠ ':' := by
  intro c hc
  have h := hexEncodeChars_all_lower bs c hc
  intro he; subst he
  simp [isLowerHexChar] at h

theorem hexDecode_hexEncode (bs : List Nat) (hb : ∀ b ∈ bs, b < 256) :
    hexDecodeChars (hexEncodeChars bs) = bs := by
  induction bs with
  | nil => rfl
  | cons b rest ih =>
    have hblt : b < 256 := hb b (List.mem_cons_self _ _)
    have h1 : hexVal (hexDigit (b / 16 % 16)) = some (b / 16 % 16) :=
      hexDigit_lt_16_spec _ (Nat.mod_lt _ (by omega))
    have h2 : hexVal (hexDigit (b % 16)) = some (b % 16) :=
      hexDigit_lt_16_spec _ (Nat.mod_lt _ (by omega))
    have hrest : hexDecodeChars (hexEncodeChars rest) = rest :=
      ih (fun x hx => hb x (List.mem_cons_of_mem _ hx))
    simp only [hexEncodeChars, hexDecodeChars, h1, h2, hrest]
    have : b / 16 % 16 = b / 16 := Nat.mod_eq_of_lt (by omega)
    rw [this]
    congr 1
    omega

theorem splitOnChar_no_sep (sep : Char) (l : List Char) (h : sep ∉ l) :
    splitOnChar sep l = [l] := by
  induction l with
  | nil => rfl
  | cons c rest ih =>
    have hc : c ≠ sep := fun he => h (he ▸ List.mem_cons_self _ _)
    have hrest : sep ∉ rest := fun hm => h (List.mem_cons_of_mem _ hm)
    simp only [splitOnChar, if_neg hc, ih hrest]

theorem splitOnChar_append_sep (sep : Char) (l1 l2 : List Char) (h : sep ∉ l1) :
    splitOnChar sep (l1 ++ sep :: l2) = l1 :: splitOnChar sep l2 := by
  induction l1 with
  | nil => simp [splitOnChar]
  | cons c rest ih =>
    have hc : c ≠ sep := fun he => h (he ▸ List.mem_cons_self _ _)
    have hrest : sep ∉ rest := fun hm => h (List.mem_cons_of_mem _ hm)
    simp only [List.cons_append, splitOnChar, if_neg hc]
    rw [show rest.append (sep :: l2) = rest ++ sep :: l2 from rfl, ih hrest]

/-- Every Unicode scalar value is below 2 to the 24, so it fits in three
base-256 digits. -/
theorem char_toNat_lt (c : Char) : c.toNat < 16777216 := by
  have h := c.valid
  rcases h with h | ⟨_, h⟩
  · have : c.val.toNat < 0xd800 := h
    simp only [Char.toNat]
    omega
  · have : c.val.toNat < 0x110000 := h
    simp only [Char.toNat]
    omega

theorem char_ofNat_toNat (c : Char) : Char.ofNat c.toNat = c := by
  have hv : c.toNat.isValidChar := c.valid
  simp only [Char.ofNat, hv, dif_pos]
  apply Char.eq_of_val_eq
  simp only [Char.ofNatAux]
  apply UInt32.eq_of_toBitVec_eq
  apply BitVec.eq_of_toNat_eq
  rfl

/-- Injective byte-level codec for strings: each character becomes its three
base-256 digits, low digit first.  Used by the executable toy AEAD instance as
its reversible plaintext encoding. -/
def strToBytes (s : String) : List Nat :=
  (s.data.map (fun c => [c.toNat % 256, c.toNat / 256 % 256, c.toNat / 65536])).flatten

def bytesToChars : List Nat → List Char
  | b0 :: b1 :: b2 :: rest => Char.ofNat (b0 + 256 * b1 + 65536 * b2) :: bytesToChars rest
  | _ => []

def bytesToStr (bs : List Nat) : String :=
  ⟨bytesToChars bs⟩

theorem bytesToChars_enc (l : List Char) :
    bytesToChars ((l.map (fun c => [c.toNat % 256, c.toNat / 256 % 256, c.toNat / 65536])).flatten) = l := by
  induction l with
  | nil => rfl
  | cons c rest ih =>
    simp only [List.map_cons, List.flatten_cons, List.cons_append, List.nil_append,
      bytesToChars, ih]
    have h : c.toNat % 256 + 256 * (c.toNat / 256 % 256) + 65536 * (c.toNat / 65536)
        = c.toNat := by omega
    rw [h, char_ofNat_toNat]
    exact congrArg (fun l => c :: l) ih

theorem bytesToStr_strToBytes (s : String) : bytesToStr (strToBytes s) = s := by
  cases s with
  | mk data =>
    simp only [bytesToStr, strToBytes]
    rw [bytesToChars_enc]

theorem strToBytes_lt (s : String) : ∀ b ∈ strToBytes s, b < 256 := by
  intro b hb
  simp only [strToBytes, List.mem_flatten, List.mem_map] at hb
  obtain ⟨l, ⟨c, _, rfl⟩, hbl⟩ := hb
  have hc := char_toNat_lt c
  simp only [List.mem_cons, List.not_mem_nil, or_false] at hbl
  rcases hbl with rfl | rfl | rfl <;> omega

/-- Interface to the external cryptographic primitives used by
src/core/crypto.js: Node scryptSync and AES-256-GCM.  The fields are the
functional laws of an ideal KDF and an ideal AEAD scheme: key derivation has
the requested length and produces bytes, encryption produces byte ciphertext
and tag, decryption inverts encryption under the same key and nonce, and
rejects under any other key (authenticity; for real AES-256-GCM a forgery
succeeds only with negligible probability, modelled here as never). -/
structure CryptoPrims where
  scrypt : String → List Nat → Nat → List Nat
  aeadEncrypt : List Nat → List Nat → String → List Nat × List Nat
  aeadDecrypt : List Nat → List Nat → List Nat → List Nat → Option String
  scrypt_length : ∀ p s n, (scrypt p s n).length = n
  scrypt_lt : ∀ p s n, ∀ b ∈ scrypt p s n, b < 256
  aead_ct_lt : ∀ k iv pt, ∀ b ∈ (aeadEncrypt k iv pt).1, b < 256
  aead_tag_lt : ∀ k iv pt, (∀ b ∈ k, b < 256) → ∀ b ∈ (aeadEncrypt k iv pt).2, b < 256
  aead_decrypt_encrypt : ∀ k iv pt,
    aeadDecrypt k iv (aeadEncrypt k iv pt).2 (aeadEncrypt k iv pt).1 = some pt
  aead_wrong_key : ∀ k k' iv pt, k' ≠ k →
    aeadDecrypt k' iv (aeadEncrypt k iv pt).2 (aeadEncrypt k iv pt).1 = none

/-- Executable toy instance of the primitive interface, used to witness the
theorems on concrete inputs.  The KDF mixes the character sum of the password
with the salt sum; the AEAD stores the plaintext through the reversible byte
codec and uses the key itself as the authentication tag, so decryption
succeeds exactly under the encrypting key. -/
def toyPrims : CryptoPrims where
  scrypt p s n := (List.range n).map (fun i => ((p.data.map Char.toNat).sum + s.sum + i) % 256)
  aeadEncrypt k _iv pt := (strToBytes pt, k)
  aeadDecrypt k _iv tag ct := if tag = k then some (bytesToStr ct) else none
  scrypt_length := by intro p s n; simp
  scrypt_lt := by
    intro p s n b hb
    simp only [List.mem_map] at hb
    obtain ⟨i, _, hi⟩ := hb
    omega
  aead_ct_lt := by intro k iv pt b hb; exact strToBytes_lt pt b hb
  aead_tag_lt := by intro k iv pt hk b hb; exact hk b hb
  aead_decrypt_encrypt := by
    intro k iv pt
    simp [bytesToStr_strToBytes]
  aead_wrong_key := by
    intro k k' iv pt hne
    have h : ¬(k = k') := fun he => hne he.symm
    simp [h]

/-! Embedding of src/core/crypto.js.  Calls to randomBytes are modelled by
explicit entropy parameters (the fresh salt and IV byte buffers). -/

structure HashResult where
  hash : String
  salt : String
deriving DecidableEq

/-- hashPassword from src/core/crypto.js: scrypt the password with a fresh
16-byte salt to 64 bytes, return both hex-encoded. -/
def hashPassword (prims : CryptoPrims) (password : String) (saltBytes : List Nat) :
    HashResult :=
  { hash := hexEncode (prims.scrypt password saltBytes 64)
    salt := hexEncode saltBytes }

/-- Node timingSafeEqual: throws a RangeError when the two buffers have
different lengths, otherwise compares them in constant time (modelled as
plain equality of the byte lists). -/
def timingSafeEqual (a b : List Nat) : Except String Bool :=
  if a.length = b.length then Except.ok (a == b)
  else Except.error "RangeError"

/-- Body of verifyPassword inside its try block: re-derive the hash from the
supplied password and stored salt and compare with timingSafeEqual. -/
def verifyPasswordInner (prims : CryptoPrims) (password storedHash salt : String) :
    Except String Bool :=
  let hashedPassword := prims.scrypt password (hexDecode salt) 64
  let storedHashBuffer := hexDecode storedHash
  timingSafeEqual hashedPassword storedHashBuffer

/-- verifyPassword from src/core/crypto.js: any error thrown inside the try
block (only timingSafeEqual can throw here) is caught and turned into false. -/
def verifyPassword (prims : CryptoPrims) (password storedHash salt : String) : Bool :=
  match verifyPasswordInner prims password storedHash salt with
  | Except.ok b => b
  | Except.error _ => false

/-- encrypt from src/core/crypto.js: derive a 32-byte key from the password
and a fresh salt, AES-256-GCM encrypt under a fresh IV, and serialize the
envelope as salt:iv:authTag:ciphertext, all fields hex. -/
def encrypt (prims : CryptoPrims) (data password : String)
    (saltBytes ivBytes : List Nat) : String :=
  let key := prims.scrypt password saltBytes 32
  let encrypted := (prims.aeadEncrypt key ivBytes data).1
  let authTag := (prims.aeadEncrypt key ivBytes data).2
  hexEncode saltBytes ++ ":" ++ hexEncode ivBytes ++ ":" ++ hexEncode authTag
    ++ ":" ++ hexEncode encrypted

/-- Internal failure kinds of decrypt in src/core/crypto.js: the explicit
field-count throw (Invalid encrypted data format) and the AEAD
authentication failure. -/
inductive DecryptError where
  | malformedEnvelope
  | decryptionFailed
deriving DecidableEq

/-- Body of decrypt inside its try block: split on colons, require exactly
four fields, hex-decode them, re-derive the key and AEAD-decrypt. -/
def decryptCore (prims : CryptoPrims) (encryptedData password : String) :
    Except DecryptError String :=
  match jsSplit ':' encryptedData with
  | [saltHex, ivHex, authTagHex, encrypted] =>
    let salt := hexDecode saltHex
    let iv := hexDecode ivHex
    let authTag := hexDecode authTagHex
    let key := prims.scrypt password salt 32
    match prims.aeadDecrypt key iv authTag (hexDecode encrypted) with
    | some decrypted => Except.ok decrypted
    | none => Except.error DecryptError.decryptionFailed
  | _ => Except.error DecryptError.malformedEnvelope

/-- decrypt from src/core/crypto.js: the catch block rethrows every internal
failure as the single error Failed to decrypt data. -/
def decrypt (prims : CryptoPrims) (encryptedData password : String) :
    Except String String :=
  match decryptCore prims encryptedData password with
  | Except.ok decrypted => Except.ok decrypted
  | Except.error _ => Except.error "Failed to decrypt data"

theorem jsSplit_envelope (a b c d : List Char)
    (ha : ':' ∉ a) (hb : ':' ∉ b) (hc : ':' ∉ c) (hd : ':' ∉ d) :
    jsSplit ':' (⟨a⟩ ++ ":" ++ ⟨b⟩ ++ ":" ++ ⟨c⟩ ++ ":" ++ (⟨d⟩ : String))
      = [⟨a⟩, ⟨b⟩, ⟨c⟩, ⟨d⟩] := by
  have hdata : (⟨a⟩ ++ ":" ++ ⟨b⟩ ++ ":" ++ ⟨c⟩ ++ ":" ++ (⟨d⟩ : String)).data
      = a ++ ':' :: (b ++ ':' :: (c ++ ':' :: d)) := by
    simp [String.data_append]
  simp only [jsSplit, hdata]
  rw [splitOnChar_append_sep _ _ _ ha, splitOnChar_append_sep _ _ _ hb,
    splitOnChar_append_sep _ _ _ hc, splitOnChar_no_sep _ _ hd]
  rfl

theorem jsSplit_encrypt (prims : CryptoPrims) (data password : String)
    (saltBytes ivBytes : List Nat) :
    jsSplit ':' (encrypt prims data password saltBytes ivBytes)
      = [hexEncode saltBytes, hexEncode ivBytes,
         hexEncode (prims.aeadEncrypt (prims.scrypt password saltBytes 32) ivBytes data).2,
         hexEncode (prims.aeadEncrypt (prims.scrypt password saltBytes 32) ivBytes data).1] := by
  exact jsSplit_envelope _ _ _ _
    (fun h => hexEncodeChars_ne_colon _ _ h rfl)
    (fun h => hexEncodeChars_ne_colon _ _ h rfl)
    (fun h => hexEncodeChars_ne_colon _ _ h rfl)
    (fun h => hexEncodeChars_ne_colon _ _ h rfl)

theorem hexDecode_hexEncode_str (bs : List Nat) (hb : ∀ b ∈ bs, b < 256) :
    hexDecode (hexEncode bs) = bs :=
  hexDecode_hexEncode bs hb

theorem isLowerHexString_hexEncode (bs : List Nat) :
    isLowerHexString (hexEncode bs) = true := by
  simp only [isLowerHexString, hexEncode, List.all_eq_true]
  exact fun c hc => hexEncodeChars_all_lower bs c hc

theorem decryptCore_not4 (prims : CryptoPrims) (s P : String)
    (h : (jsSplit ':' s).length ≠ 4) :
    decryptCore prims s P = Except.error DecryptError.malformedEnvelope := by
  unfold decryptCore
  rcases hl : jsSplit ':' s with _ | ⟨a, _ | ⟨b, _ | ⟨c, _ | ⟨d, _ | ⟨e, t⟩⟩⟩⟩⟩
  · rfl
  · rfl
  · rfl
  · rfl
  · exact absurd (by rw [hl]; rfl) h
  · rfl

/-! Data model of the persistence backend (src/storage/json-adapter.js and
src/storage/postgres-adapter.js) and of the session manager. -/

structure Wallet where
  publicKey : String
  encryptedPrivateKey : String
  passwordHash : String
  salt : String
  createdAt : String
deriving DecidableEq

structure Balance where
  solBalance : Int
  customData : List (String × String)
deriving DecidableEq

structure Transaction where
  txData : String
  timestamp : Nat
deriving DecidableEq

/-- Session record stored by SessionManager.createSession in
src/core/session.js: the authenticated publicKey, the optional decrypted
privateKey, caller-supplied metadata, and the createdAt and expiresAt
timestamps. -/
structure Session where
  publicKey : String
  privateKey : Option String
  metadata : List (String × String)
  createdAt : Nat
  expiresAt : Nat
deriving DecidableEq

/-- State of the SessionManager from src/core/session.js: the sessions Map
keyed by session token (an association list where lookup sees the most
recent binding, matching Map.set), and the configured sessionDuration. -/
structure SessionManager where
  sessions : List (String × Session)
  sessionDuration : Nat
deriving DecidableEq

/-- createSession from src/core/session.js: allocate a fresh token
(generateToken(32), modelled as an explicit entropy parameter freshToken),
store the session record keyed by the token with
expiresAt = now + sessionDuration, and return the token.  The JS privateKey
and metadata parameters default to null and the empty object at call sites
that omit them. -/
def createSession (mgr : SessionManager) (publicKey : String)
    (privateKey : Option String) (metadata : List (String × String))
    (freshToken : String) (now : Nat) : String × SessionManager :=
  (freshToken,
    { mgr with
        sessions :=
          (freshToken,
            { publicKey := publicKey
              privateKey := privateKey
              metadata := metadata
              createdAt := now
              expiresAt := now + mgr.sessionDuration }) :: mgr.sessions })

/-- Read interface of the storage adapter as consumed by the authenticate
handler. -/
structure Storage where
  getWallet : String → Option Wallet
  getBalance : String → Option Balance

/-- Result of the authenticate handler in src/handlers/create-wallet.js:
either a failure object with an error string, or the success object carrying
sessionToken, publicKey, balance and message. -/
inductive AuthResult where
  | failure (error : String)
  | success (sessionToken publicKey : String) (balance : Balance) (message : String)
deriving DecidableEq

/-- authenticate from src/handlers/create-wallet.js.  Validation of the falsy
inputs, wallet fetch, password verification, best-effort decryption of the
private key (failures are logged and replaced by null), session creation and
balance fetch with the zero default. -/
def authenticate (prims : CryptoPrims) (storage : Storage) (store : SessionManager)
    (publicKey password freshToken : String) (now : Nat) :
    AuthResult × SessionManager :=
  if publicKey = "" ∨ password = "" then
    (AuthResult.failure "Public key and password are required", store)
  else
    match storage.getWallet publicKey with
    | none => (AuthResult.failure "Wallet not found", store)
    | some wallet =>
      if verifyPassword prims password wallet.passwordHash wallet.salt then
        let decryptedPrivateKey : Option String :=
          match decryptCore prims wallet.encryptedPrivateKey password with
          | Except.ok pk => some pk
          | Except.error _ => none
        let res := createSession store publicKey decryptedPrivateKey [] freshToken now
        let balance := (storage.getBalance publicKey).getD
          { solBalance := 0, customData := [] }
        (AuthResult.success res.1 publicKey balance "Authentication successful", res.2)
      else
        (AuthResult.failure "Invalid password", store)

/-- In-memory state of the JSON file adapter: the wallets, balances and
transactions objects, keyed by public key (association lists where lookup
sees the most recent binding, matching object-property update). -/
structure JSONData where
  wallets : List (String × Wallet)
  balances : List (String × Balance)
  transactions : List (String × List Transaction)
deriving DecidableEq

namespace JSONAdapter

/-- createWallet from src/storage/json-adapter.js: reject when a wallet for
the public key already exists, otherwise create the wallet record, the
zero balance and the empty transaction list together. -/
def createWallet (d : JSONData) (publicKey encryptedPrivateKey passwordHash salt : String)
    (now : String) : Except String JSONData :=
  if (d.wallets.lookup publicKey).isSome then
    Except.error "Wallet already exists"
  else
    Except.ok
      { wallets :=
          (publicKey,
            { publicKey := publicKey
              encryptedPrivateKey := encryptedPrivateKey
              passwordHash := passwordHash
              salt := salt
              createdAt := now }) :: d.wallets
        balances := (publicKey, { solBalance := 0, customData := [] }) :: d.balances
        transactions := (publicKey, ([] : List Transaction)) :: d.transactions }

def getWallet (d : JSONData) (publicKey : String) : Option Wallet :=
  d.wallets.lookup publicKey

def getBalance (d : JSONData) (publicKey : String) : Option Balance :=
  d.balances.lookup publicKey

/-- addTransaction from src/storage/json-adapter.js: initialize the list if
absent, stamp the transaction with the current time, and push it at the
end. -/
def addTransaction (d : JSONData) (publicKey : String) (txData : String) (now : Nat) :
    Transaction × JSONData :=
  let existing := (d.transactions.lookup publicKey).getD []
  let tx : Transaction := { txData := txData, timestamp := now }
  (tx, { d with transactions := (publicKey, existing ++ [tx]) :: d.transactions })

/-- getTransactions from src/storage/json-adapter.js: slice(offset,
offset + limit) of the stored list, in stored order. -/
def getTransactions (d : JSONData) (publicKey : String) (limit offset : Nat) :
    List Transaction :=
  let transactions := (d.transactions.lookup publicKey).getD []
  (transactions.drop offset).take limit

/-- deleteWallet from src/storage/json-adapter.js: delete the three entries
(a no-op deletion is fine) and unconditionally return true. -/
def deleteWallet (d : JSONData) (publicKey : String) : Bool × JSONData :=
  (true,
    { wallets := d.wallets.filter (fun kv => kv.1 != publicKey)
      balances := d.balances.filter (fun kv => kv.1 != publicKey)
      transactions := d.transactions.filter (fun kv => kv.1 != publicKey) })

end JSONAdapter

namespace PostgresAdapter

/-- Row of the zero_transactions table. -/
structure TxRow where
  publicKey : String
  txData : String
  timestamp : Nat
deriving DecidableEq

/-- getTransactions from src/storage/postgres-adapter.js, modelling the SQL
query: filter rows by public key, ORDER BY timestamp DESC, then OFFSET and
LIMIT. -/
def getTransactions (rows : List TxRow) (publicKey : String) (limit offset : Nat) :
    List Transaction :=
  let filtered := rows.filter (fun r => r.publicKey == publicKey)
  let sorted := filtered.mergeSort (fun a b => decide (b.timestamp ≤ a.timestamp))
  (((sorted.map (fun r => ({ txData := r.txData, timestamp := r.timestamp } : Transaction))).drop
    offset).take limit)

end PostgresAdapter

/-- Ordering predicate used by the spec: most-recent-first, i.e. timestamps
are nonincreasing along the list. -/
def mostRecentFirst (l : List Transaction) : Prop :=
  List.Pairwise (fun a b => b.timestamp ≤ a.timestamp) l

/-- Insertion order of the JSON adapter under a monotone clock: timestamps
are nondecreasing along the list. -/
def oldestFirst (l : List Transaction) : Prop :=
  List.Pairwise (fun a b => a.timestamp ≤ b.timestamp) l

instance (l : List Transaction) : Decidable (mostRecentFirst l) :=
  inferInstanceAs (Decidable (List.Pairwise _ l))

instance (l : List Transaction) : Decidable (oldestFirst l) :=
  inferInstanceAs (Decidable (List.Pairwise _ l))

/-! Claim theorems. -/

/-- C1: for every plaintext M and password P (and any fresh salt and IV byte
buffers), decrypting the envelope produced by encrypt with the same password
returns M exactly. -/
theorem decrypt_encrypt_roundtrip (prims : CryptoPrims) (M P : String)
    (saltBytes ivBytes : List Nat)
    (hsalt : ∀ x ∈ saltBytes, x < 256) (hiv : ∀ x ∈ ivBytes, x < 256) :
    decrypt prims (encrypt prims M P saltBytes ivBytes) P = Except.ok M := by
  have hkey := prims.scrypt_lt P saltBytes 32
  have hct := prims.aead_ct_lt (prims.scrypt P saltBytes 32) ivBytes M
  have htag := prims.aead_tag_lt (prims.scrypt P saltBytes 32) ivBytes M hkey
  simp only [decrypt, decryptCore, jsSplit_encrypt,
    hexDecode_hexEncode_str _ hsalt, hexDecode_hexEncode_str _ hiv,
    hexDecode_hexEncode_str _ htag, hexDecode_hexEncode_str _ hct,
    prims.aead_decrypt_encrypt]

theorem decrypt_encrypt_roundtrip_witness :
    decrypt toyPrims (encrypt toyPrims "hi" "pw" [0, 255] [1, 2]) "pw"
      = Except.ok "hi" :=
  decrypt_encrypt_roundtrip toyPrims "hi" "pw" [0, 255] [1, 2]
    (by decide) (by decide)

/-- C2: decrypting an envelope with a different password fails with the
decryption-failure kind (and the catch block surfaces the single Failed to
decrypt data error); no plaintext is ever returned.  The hypothesis hkeys is
the ideal-KDF reading of P distinct from P2: distinct passwords derive
distinct keys, which for scrypt fails only with negligible probability. -/
theorem decrypt_wrong_password (prims : CryptoPrims) (M P P2 : String)
    (saltBytes ivBytes : List Nat)
    (hsalt : ∀ x ∈ saltBytes, x < 256) (hiv : ∀ x ∈ ivBytes, x < 256)
    (hkeys : prims.scrypt P2 saltBytes 32 ≠ prims.scrypt P saltBytes 32) :
    decryptCore prims (encrypt prims M P saltBytes ivBytes) P2
        = Except.error DecryptError.decryptionFailed
      ∧ decrypt prims (encrypt prims M P saltBytes ivBytes) P2
        = Except.error "Failed to decrypt data" := by
  have hkey := prims.scrypt_lt P saltBytes 32
  have hct := prims.aead_ct_lt (prims.scrypt P saltBytes 32) ivBytes M
  have htag := prims.aead_tag_lt (prims.scrypt P saltBytes 32) ivBytes M hkey
  have hcore : decryptCore prims (encrypt prims M P saltBytes ivBytes) P2
      = Except.error DecryptError.decryptionFailed := by
    simp only [decryptCore, jsSplit_encrypt,
      hexDecode_hexEncode_str _ hsalt, hexDecode_hexEncode_str _ hiv,
      hexDecode_hexEncode_str _ htag, hexDecode_hexEncode_str _ hct,
      prims.aead_wrong_key _ _ _ _ hkeys]
  exact ⟨hcore, by simp only [decrypt, hcore]⟩

theorem decrypt_wrong_password_witness :
    decryptCore toyPrims (encrypt toyPrims "hi" "aa" [0, 255] [1, 2]) "bb"
        = Except.error DecryptError.decryptionFailed
      ∧ decrypt toyPrims (encrypt toyPrims "hi" "aa" [0, 255] [1, 2]) "bb"
        = Except.error "Failed to decrypt data" :=
  decrypt_wrong_password toyPrims "hi" "aa" "bb" [0, 255] [1, 2]
    (by decide) (by decide) (by decide)

/-- C5: every envelope produced by encrypt has exactly four colon-joined
fields, each a lowercase hex string; and decrypt on any input whose
colon-split field count is not four fails with the malformed-envelope kind
(which the catch block then surfaces as the generic decryption error). -/
theorem envelope_wire_format (prims : CryptoPrims) (M P Pd s : String)
    (saltBytes ivBytes : List Nat)
    (hcount : (jsSplit ':' s).length ≠ 4) :
    ((jsSplit ':' (encrypt prims M P saltBytes ivBytes)).length = 4
      ∧ ∀ f ∈ jsSplit ':' (encrypt prims M P saltBytes ivBytes),
          isLowerHexString f = true)
    ∧ decryptCore prims s Pd = Except.error DecryptError.malformedEnvelope := by
  refine ⟨⟨?_, ?_⟩, decryptCore_not4 prims s Pd hcount⟩
  · rw [jsSplit_encrypt]; rfl
  · rw [jsSplit_encrypt]
    intro f hf
    simp only [List.mem_cons, List.not_mem_nil, or_false] at hf
    rcases hf with rfl | rfl | rfl | rfl <;> exact isLowerHexString_hexEncode _

theorem envelope_wire_format_witness :
    ((jsSplit ':' (encrypt toyPrims "m" "p" [1] [2])).length = 4
      ∧ ∀ f ∈ jsSplit ':' (encrypt toyPrims "m" "p" [1] [2]),
          isLowerHexString f = true)
    ∧ decryptCore toyPrims "abc" "p" = Except.error DecryptError.malformedEnvelope :=
  envelope_wire_format toyPrims "m" "p" "p" "abc" [1] [2] (by decide)

/-- C3: when the stored wallet exists but the password fails verification,
authenticate returns the Invalid password failure, returns no token, and
leaves the session store exactly unchanged. -/
theorem authenticate_invalid_password (prims : CryptoPrims) (storage : Storage)
    (store : SessionManager) (publicKey password freshToken : String) (now : Nat)
    (w : Wallet)
    (hpk : publicKey ≠ "") (hpw : password ≠ "")
    (hw : storage.getWallet publicKey = some w)
    (hv : verifyPassword prims password w.passwordHash w.salt = false) :
    authenticate prims storage store publicKey password freshToken now
      = (AuthResult.failure "Invalid password", store) := by
  simp [authenticate, hpk, hpw, hw, hv]

theorem authenticate_invalid_password_witness :
    authenticate toyPrims
      ⟨fun pk => if pk = "W" then some ⟨"W", "e", "", "", "t"⟩ else none, fun _ => none⟩
      ⟨[], 1000⟩ "W" "pw" "tok" 5
      = (AuthResult.failure "Invalid password", ⟨[], 1000⟩) :=
  authenticate_invalid_password toyPrims
    ⟨fun pk => if pk = "W" then some ⟨"W", "e", "", "", "t"⟩ else none, fun _ => none⟩
    ⟨[], 1000⟩ "W" "pw" "tok" 5 ⟨"W", "e", "", "", "t"⟩
    (by decide) (by decide) (by decide) (by decide)

/-- C4: when the password verifies but the stored envelope fails to decrypt,
authenticate still succeeds: it returns the session token and a balance, and
the session it creates carries no private key material. -/
theorem authenticate_decrypt_failure_succeeds (prims : CryptoPrims)
    (storage : Storage) (store : SessionManager)
    (publicKey password freshToken : String) (now : Nat) (w : Wallet)
    (e : DecryptError)
    (hpk : publicKey ≠ "") (hpw : password ≠ "")
    (hw : storage.getWallet publicKey = some w)
    (hv : verifyPassword prims password w.passwordHash w.salt = true)
    (hd : decryptCore prims w.encryptedPrivateKey password = Except.error e) :
    authenticate prims storage store publicKey password freshToken now
      = (AuthResult.success freshToken publicKey
          ((storage.getBalance publicKey).getD { solBalance := 0, customData := [] })
          "Authentication successful",
         (createSession store publicKey none [] freshToken now).2)
      ∧ ((authenticate prims storage store publicKey password freshToken now).2.sessions.lookup
          freshToken).map Session.privateKey = some none := by
  have hmain : authenticate prims storage store publicKey password freshToken now
      = (AuthResult.success freshToken publicKey
          ((storage.getBalance publicKey).getD { solBalance := 0, customData := [] })
          "Authentication successful",
         (createSession store publicKey none [] freshToken now).2) := by
    simp only [authenticate, hpk, hpw, or_self, hw, hv, hd, if_true, createSession]
    simp [hpk, hpw]
  refine ⟨hmain, ?_⟩
  rw [hmain]
  simp [createSession, List.lookup]

theorem authenticate_decrypt_failure_succeeds_witness :
    authenticate toyPrims
      ⟨fun pk => if pk = "W"
          then some ⟨"W", "zz", (hashPassword toyPrims "abcdef" []).hash, "", "t"⟩
          else none,
        fun _ => none⟩
      ⟨[], 1000⟩ "W" "abcdef" "tok" 5
      = (AuthResult.success "tok" "W" { solBalance := 0, customData := [] }
          "Authentication successful",
         (createSession ⟨[], 1000⟩ "W" none [] "tok" 5).2)
      ∧ ((authenticate toyPrims
          ⟨fun pk => if pk = "W"
              then some ⟨"W", "zz", (hashPassword toyPrims "abcdef" []).hash, "", "t"⟩
              else none,
            fun _ => none⟩
          ⟨[], 1000⟩ "W" "abcdef" "tok" 5).2.sessions.lookup
          "tok").map Session.privateKey = some none :=
  authenticate_decrypt_failure_succeeds toyPrims
    ⟨fun pk => if pk = "W"
        then some ⟨"W", "zz", (hashPassword toyPrims "abcdef" []).hash, "", "t"⟩
        else none,
      fun _ => none⟩
    ⟨[], 1000⟩ "W" "abcdef" "tok" 5
    ⟨"W", "zz", (hashPassword toyPrims "abcdef" []).hash, "", "t"⟩
    DecryptError.malformedEnvelope
    (by decide) (by decide) (by decide) (by decide) (by rfl)

/-- C6: two hashPassword calls with distinct fresh salts return distinct
stored salts, and each returned pair verifies against the password. -/
theorem hashPassword_two_calls (prims : CryptoPrims) (P : String)
    (s1 s2 : List Nat)
    (h1 : ∀ b ∈ s1, b < 256) (h2 : ∀ b ∈ s2, b < 256) (hne : s1 ≠ s2) :
    (hashPassword prims P s1).salt ≠ (hashPassword prims P s2).salt
      ∧ verifyPassword prims P (hashPassword prims P s1).hash
          (hashPassword prims P s1).salt = true
      ∧ verifyPassword prims P (hashPassword prims P s2).hash
          (hashPassword prims P s2).salt = true := by
  have hverify : ∀ s : List Nat, (∀ b ∈ s, b < 256) →
      verifyPassword prims P (hashPassword prims P s).hash
        (hashPassword prims P s).salt = true := by
    intro s hs
    have hsc := prims.scrypt_lt P s 64
    simp only [verifyPassword, verifyPasswordInner, hashPassword,
      hexDecode_hexEncode_str _ hs, hexDecode_hexEncode_str _ hsc,
      timingSafeEqual, if_pos rfl, beq_self_eq_true]
    rfl
  refine ⟨?_, hverify s1 h1, hverify s2 h2⟩
  intro heq
  apply hne
  have := congrArg hexDecode heq
  simpa [hashPassword, hexDecode_hexEncode_str _ h1,
    hexDecode_hexEncode_str _ h2] using this

theorem hashPassword_two_calls_witness :
    (hashPassword toyPrims "pw" [3]).salt ≠ (hashPassword toyPrims "pw" [4]).salt
      ∧ verifyPassword toyPrims "pw" (hashPassword toyPrims "pw" [3]).hash
          (hashPassword toyPrims "pw" [3]).salt = true
      ∧ verifyPassword toyPrims "pw" (hashPassword toyPrims "pw" [4]).hash
          (hashPassword toyPrims "pw" [4]).salt = true :=
  hashPassword_two_calls toyPrims "pw" [3] [4] (by decide) (by decide) (by decide)

/-- C7: verifyPassword never lets a failure escape: whenever the stored hash
does not decode to the 64 derived bytes it returns false (in particular for
length mismatches, where Node timingSafeEqual throws and the catch block
returns false), and it returns true only when the decoded stored hash equals
the re-derived hash exactly. -/
theorem verifyPassword_false_on_failure (prims : CryptoPrims)
    (password storedHash salt : String) :
    ((hexDecode storedHash).length ≠ 64 →
      verifyPassword prims password storedHash salt = false)
    ∧ (verifyPassword prims password storedHash salt = true →
        hexDecode storedHash = prims.scrypt password (hexDecode salt) 64) := by
  constructor
  · intro hlen
    have hl := prims.scrypt_length password (hexDecode salt) 64
    simp only [verifyPassword, verifyPasswordInner, timingSafeEqual]
    rw [if_neg (by omega)]
  · intro htrue
    simp only [verifyPassword, verifyPasswordInner, timingSafeEqual] at htrue
    by_cases hlen : (prims.scrypt password (hexDecode salt) 64).length
        = (hexDecode storedHash).length
    · rw [if_pos hlen] at htrue
      simp only [beq_iff_eq] at htrue
      exact htrue.symm
    · rw [if_neg hlen] at htrue
      cases htrue

theorem verifyPassword_false_on_failure_witness :
    verifyPassword toyPrims "x" "" "" = false
      ∧ hexDecode (hashPassword toyPrims "x" []).hash
        = toyPrims.scrypt "x" (hexDecode (hashPassword toyPrims "x" []).salt) 64 :=
  ⟨(verifyPassword_false_on_failure toyPrims "x" "" "").1 (by decide),
   (verifyPassword_false_on_failure toyPrims "x"
      (hashPassword toyPrims "x" []).hash
      (hashPassword toyPrims "x" []).salt).2 (by decide)⟩

theorem lookup_filter_ne {α : Type} (l : List (String × α)) (k : String) :
    (l.filter (fun kv => kv.1 != k)).lookup k = none := by
  induction l with
  | nil => rfl
  | cons kv rest ih =>
    rcases kv with ⟨a, v⟩
    by_cases h : a = k
    · subst h
      simpa using ih
    · have hne : (k == a) = false := beq_false_of_ne (fun he => h he.symm)
      have hkeep : ((a, v).1 != k) = true := by
        simp [bne, beq_false_of_ne h]
      simp only [List.filter_cons, hkeep, if_true, List.lookup, hne, ih]

/-- C8: wallet creation in the JSON backend is all-or-nothing: either the
wallet record, its zero balance and its empty transaction list are all
present in the new store, or the wallet already existed, createWallet fails
with the wallet-already-exists error and no new store is produced. -/
theorem createWallet_atomic (d : JSONData) (pk epk ph salt now : String) :
    (∃ d2, JSONAdapter.createWallet d pk epk ph salt now = Except.ok d2
      ∧ d2.wallets.lookup pk = some ⟨pk, epk, ph, salt, now⟩
      ∧ d2.balances.lookup pk = some ⟨0, []⟩
      ∧ d2.transactions.lookup pk = some [])
    ∨ (JSONAdapter.createWallet d pk epk ph salt now
        = Except.error "Wallet already exists"
      ∧ (d.wallets.lookup pk).isSome) := by
  by_cases h : (d.wallets.lookup pk).isSome
  · exact Or.inr ⟨by simp [JSONAdapter.createWallet, h], h⟩
  · refine Or.inl
      ⟨{ wallets := (pk, ⟨pk, epk, ph, salt, now⟩) :: d.wallets,
         balances := (pk, ⟨0, []⟩) :: d.balances,
         transactions := (pk, []) :: d.transactions }, ?_, ?_, ?_, ?_⟩
    · simp [JSONAdapter.createWallet, h]
    · simp [List.lookup]
    · simp [List.lookup]
    · simp [List.lookup]

/-- C10: JSONAdapter.deleteWallet reports success for every public key, in
particular for one with no stored wallet, and afterwards the wallet entry is
absent. -/
theorem deleteWallet_always_true (d : JSONData) (pk : String) :
    (JSONAdapter.deleteWallet d pk).1 = true
      ∧ (JSONAdapter.deleteWallet d pk).2.wallets.lookup pk = none :=
  ⟨rfl, lookup_filter_ne _ _⟩

/-- C9 counterexample: the JSON adapter returns transactions in insertion
order, so a wallet with two transactions stamped at times 1 and then 2 comes
back oldest-first, refuting most-recent-first ordering for every adapter. -/
theorem getTransactions_json_counterexample :
    ¬ mostRecentFirst (JSONAdapter.getTransactions
        (JSONAdapter.addTransaction
          (JSONAdapter.addTransaction ⟨[], [], []⟩ "W" "t1" 1).2 "W" "t2" 2).2
        "W" 100 0) := by
  decide

/-- C9 as amended: PostgresAdapter.getTransactions orders most-recent-first
(ORDER BY timestamp DESC); JSONAdapter.getTransactions instead returns the
stored insertion order, which is oldest-first whenever the stored list has
nondecreasing timestamps (as produced by addTransaction under a monotone
clock). -/
theorem getTransactions_order (rows : List PostgresAdapter.TxRow) (pk : String)
    (limit offset : Nat) (d : JSONData)
    (hasc : oldestFirst ((d.transactions.lookup pk).getD [])) :
    mostRecentFirst (PostgresAdapter.getTransactions rows pk limit offset)
      ∧ oldestFirst (JSONAdapter.getTransactions d pk limit offset) := by
  constructor
  · unfold PostgresAdapter.getTransactions mostRecentFirst
    have htrans : ∀ a b c : PostgresAdapter.TxRow,
        decide (b.timestamp ≤ a.timestamp) → decide (c.timestamp ≤ b.timestamp) →
        decide (c.timestamp ≤ a.timestamp) := by
      intro a b c hab hbc
      simp only [decide_eq_true_eq] at *
      omega
    have htotal : ∀ a b : PostgresAdapter.TxRow,
        decide (b.timestamp ≤ a.timestamp) || decide (a.timestamp ≤ b.timestamp) := by
      intro a b
      simpa using Nat.le_total b.timestamp a.timestamp
    have hsorted := List.sorted_mergeSort htrans htotal
      (rows.filter (fun r => r.publicKey == pk))
    have hmap : (((rows.filter (fun r => r.publicKey == pk)).mergeSort
          (fun a b => decide (b.timestamp ≤ a.timestamp))).map
          (fun r => ({ txData := r.txData, timestamp := r.timestamp } : Transaction))).Pairwise
        (fun a b => b.timestamp ≤ a.timestamp) := by
      rw [List.pairwise_map]
      exact hsorted.imp (fun h => by simpa using h)
    exact hmap.sublist ((List.take_sublist _ _).trans (List.drop_sublist _ _))
  · unfold JSONAdapter.getTransactions oldestFirst
    exact hasc.sublist ((List.take_sublist _ _).trans (List.drop_sublist _ _))

theorem getTransactions_order_witness :
    mostRecentFirst (PostgresAdapter.getTransactions
        [⟨"W", "a", 5⟩, ⟨"W", "b", 9⟩] "W" 100 0)
      ∧ oldestFirst (JSONAdapter.getTransactions
        (JSONAdapter.addTransaction
          (JSONAdapter.addTransaction ⟨[], [], []⟩ "W" "t1" 1).2 "W" "t2" 2).2
        "W" 100 0) :=
  getTransactions_order [⟨"W", "a", 5⟩, ⟨"W", "b", 9⟩] "W" 100 0
    (JSONAdapter.addTransaction
      (JSONAdapter.addTransaction ⟨[], [], []⟩ "W" "t1" 1).2 "W" "t2" 2).2
    (by decide)

end ZeroConnector
